import Mathlib

/-!
# OpenAgentTrace — verification of the spec's claims against the source

This file shallowly embeds the parts of the OpenAgentTrace repository that
the claims are about:

* the JSON payload model and the two serializers
  (`json.dumps(data, default=str)` in `backend/main.py`, and
  `json.dumps(data, default=str, sort_keys=True)` in `agent_tracer.py`),
* the two content-addressed blob stores (`backend/main.py:save_blob`,
  `agent_tracer.py:StorageEngine.save_blob`) and the blob reader
  (`backend/main.py:get_blob`, which calls `json.load` unconditionally),
* the collector's ingest upsert and metric append
  (`backend/main.py:ingest_span`),
* the analytics error-rate query (`backend/main.py:get_analytics`),
* the queue-based span recorder (`backend/tracer.py:_run_span_logic` and
  the delivery worker), and
* the local-storage span recorder
  (`agent_tracer.py:_execute_sync` / `_finalize_span` / `trace`).

Machine floats of the source are modelled as rationals, SQL counters as
naturals, and the SHA-256 hex digest as an injective function of the
hashed text (collision-freedom idealization: the claims about the blob
store depend only on the digest being a deterministic injective function
of the canonical text).
-/

/-- JSON values as produced by Python's `json` module from the payloads the
tracer serializes.  Objects are modelled as association lists in insertion
order (Python dicts preserve insertion order and cannot hold duplicate
keys); numbers are modelled as naturals, which covers the integer payloads
the claims exercise. -/
inductive JValue where
  | null
  | bool (b : Bool)
  | num (n : Nat)
  | str (s : String)
  | arr (elems : List JValue)
  | obj (entries : List (String × JValue))
deriving Repr

mutual
/-- Structural equality test for `JValue`. -/
def beqV : JValue → JValue → Bool
  | .null, .null => true
  | .bool a, .bool b => a == b
  | .num a, .num b => a == b
  | .str a, .str b => a == b
  | .arr a, .arr b => beqL a b
  | .obj a, .obj b => beqP a b
  | _, _ => false

def beqL : List JValue → List JValue → Bool
  | [], [] => true
  | x :: xs, y :: ys => beqV x y && beqL xs ys
  | _, _ => false

def beqP : List (String × JValue) → List (String × JValue) → Bool
  | [], [] => true
  | (k, v) :: xs, (k', v') :: ys => k == k' && beqV v v' && beqP xs ys
  | _, _ => false
end

mutual
theorem beqV_iff : ∀ a b : JValue, beqV a b = true ↔ a = b
  | .null, b => by cases b <;> simp [beqV]
  | .bool x, b => by cases b <;> simp [beqV]
  | .num x, b => by cases b <;> simp [beqV]
  | .str x, b => by cases b <;> simp [beqV]
  | .arr l, b => by
      cases b
      case arr m =>
        have h := beqL_iff l m
        simpa [beqV] using h
      all_goals simp [beqV]
  | .obj l, b => by
      cases b
      case obj m =>
        have h := beqP_iff l m
        simpa [beqV] using h
      all_goals simp [beqV]

theorem beqL_iff : ∀ a b : List JValue, beqL a b = true ↔ a = b
  | [], b => by cases b <;> simp [beqL]
  | x :: xs, b => by
      cases b with
      | nil => simp [beqL]
      | cons y ys =>
          simp only [beqL, Bool.and_eq_true, beqV_iff x y, beqL_iff xs ys,
            List.cons.injEq]

theorem beqP_iff : ∀ a b : List (String × JValue), beqP a b = true ↔ a = b
  | [], b => by cases b <;> simp [beqP]
  | (k, v) :: xs, b => by
      cases b with
      | nil => simp [beqP]
      | cons y ys =>
          obtain ⟨k', v'⟩ := y
          simp only [beqP, Bool.and_eq_true, beqV_iff v v', beqP_iff xs ys,
            List.cons.injEq, beq_iff_eq, Prod.mk.injEq]
end

instance : DecidableEq JValue := fun a b => decidable_of_iff _ (beqV_iff a b)

/-- A Python value handed to `save_blob`: either JSON-serializable (Python
`None` is `jsonable .null`), or a value on which `json.dumps` raises, whose
best-effort `str(data)` form is the carried string. -/
inductive PyValue where
  | jsonable (j : JValue)
  | raw (s : String)
deriving Repr, DecidableEq

/-- A Python exception: its message (`str(e)`) plus a payload number
modelling object identity, so that "re-raised unmodified" is expressible. -/
structure PyExc where
  msg : String
  payload : Nat
deriving Repr, DecidableEq

/-- Decimal digits of `n`, most significant first, as written by
`json.dumps` for an `int`. -/
def natToChars (n : Nat) : List Char :=
  if h : n < 10 then [Char.ofNat (48 + n)]
  else natToChars (n / 10) ++ [Char.ofNat (48 + n % 10)]
  decreasing_by exact Nat.div_lt_self (by omega) (by omega)

/-- The escape `json.dumps` applies to one character of a string literal
(quote, backslash and the common control characters; `\uXXXX` escaping of
other control characters is not modelled — payload strings are modelled
over the printable range). -/
def escapeChar (c : Char) : List Char :=
  if c = '"' then ['\\', '"']
  else if c = '\\' then ['\\', '\\']
  else if c = '\n' then ['\\', 'n']
  else if c = '\t' then ['\\', 't']
  else if c = '\r' then ['\\', 'r']
  else [c]

/-- Escape a whole string body. -/
def escapeChars : List Char → List Char
  | [] => []
  | c :: cs => escapeChar c ++ escapeChars cs

mutual
/-- `json.dumps(v)` with Python's default separators `", "` and `": "`,
serializing object entries in insertion order — the behaviour of
`backend/main.py:save_blob`, which passes no `sort_keys`. -/
def dumpVal : JValue → List Char
  | .null => 'n' :: ['u', 'l', 'l']
  | .bool true => 't' :: ['r', 'u', 'e']
  | .bool false => 'f' :: ['a', 'l', 's', 'e']
  | .num n => natToChars n
  | .str s => '"' :: (escapeChars s.data ++ ['"'])
  | .arr [] => ['[', ']']
  | .arr (x :: xs) => '[' :: (dumpVal x ++ dumpListTail xs ++ [']'])
  | .obj [] => ['\x7b', '\x7d']
  | .obj ((k, v) :: kvs) =>
      '\x7b' :: ('"' :: (escapeChars k.data ++ ['"', ':', ' '] ++ dumpVal v
        ++ dumpObjTail kvs ++ ['\x7d']))

/-- Remaining array elements, each preceded by `", "`. -/
def dumpListTail : List JValue → List Char
  | [] => []
  | x :: xs => ',' :: ' ' :: (dumpVal x ++ dumpListTail xs)

/-- Remaining object entries, each preceded by `", "`. -/
def dumpObjTail : List (String × JValue) → List Char
  | [] => []
  | (k, v) :: kvs =>
      ',' :: ' ' :: '"' :: (escapeChars k.data ++ ['"', ':', ' ']
        ++ dumpVal v ++ dumpObjTail kvs)
end

/-- Insert an object entry into a key-sorted list, keeping ascending key
order (Python's `sorted` used by `json.dumps(..., sort_keys=True)`). -/
def insertPair (p : String × JValue) :
    List (String × JValue) → List (String × JValue)
  | [] => [p]
  | q :: qs => if p.1 < q.1 then p :: q :: qs else q :: insertPair p qs

/-- Sort object entries by key, ascending. -/
def sortPairs : List (String × JValue) → List (String × JValue)
  | [] => []
  | p :: ps => insertPair p (sortPairs ps)

mutual
/-- Recursively sort every object's entries by key: `sort_keys=True`
applied at serialization time is the same as serializing the recursively
key-sorted value. -/
def sortKeysRec : JValue → JValue
  | .null => .null
  | .bool b => .bool b
  | .num n => .num n
  | .str s => .str s
  | .arr l => .arr (sortKeysList l)
  | .obj l => .obj (sortPairs (sortKeysPairs l))

def sortKeysList : List JValue → List JValue
  | [] => []
  | x :: xs => sortKeysRec x :: sortKeysList xs

def sortKeysPairs : List (String × JValue) → List (String × JValue)
  | [] => []
  | (k, v) :: kvs => (k, sortKeysRec v) :: sortKeysPairs kvs
end

/-- The canonical text `backend/main.py:save_blob` hashes and writes:
`json.dumps(data, default=str)` when serializable, else `str(data)`. -/
def dumpsBackendText : PyValue → String
  | .jsonable j => String.mk (dumpVal j)
  | .raw s => s

/-- The canonical text `agent_tracer.py:StorageEngine.save_blob` hashes and
writes: `json.dumps(data, default=str, sort_keys=True)` when serializable,
else `str(data)`. -/
def dumpsLocalText : PyValue → String
  | .jsonable j => String.mk (dumpVal (sortKeysRec j))
  | .raw s => s

/-- The SHA-256 hex digest of the canonical text, idealized as an injective
deterministic function of its input. -/
def sha256hex (s : String) : String := "sha256-" ++ s

/-- The on-disk state of one blob directory: the stored files (hash name to
text content) and, for auditing the claims about deduplication, the log of
write operations actually performed (each entry the hash written). -/
structure BlobState where
  blobs : List (String × String)
  writes : List String
deriving Repr, DecidableEq

/-- The empty blob directory. -/
def BlobState.empty : BlobState := ⟨[], []⟩

/-- Content lookup by file name. -/
def BlobState.lookup (st : BlobState) (h : String) : Option String :=
  (st.blobs.find? (fun e => e.1 == h)).map (fun e => e.2)

/-- `open(path, "w").write(text)`: replace the file's content if the name
exists, otherwise create it. -/
def BlobState.overwrite : List (String × String) → String → String →
    List (String × String)
  | [], h, t => [(h, t)]
  | e :: es, h, t =>
      if e.1 == h then (h, t) :: es else e :: BlobState.overwrite es h t

/-- The hash `backend/main.py:save_blob` returns for a value: `None` for
Python `None`, else the digest of the canonical text. -/
def blobHashBackend : PyValue → Option String
  | .jsonable .null => none
  | v => some (sha256hex (dumpsBackendText v))

/-- `backend/main.py:save_blob`: returns `None` for `None`; otherwise
serializes (falling back to `str(data)`), hashes, and writes the text to
the hash-named file unconditionally (no existence check). -/
def saveBlobBackend (v : PyValue) (st : BlobState) : Option String × BlobState :=
  match v with
  | .jsonable .null => (none, st)
  | v =>
      let text := dumpsBackendText v
      let h := sha256hex text
      (some h, ⟨BlobState.overwrite st.blobs h text, st.writes ++ [h]⟩)

/-- The hash `agent_tracer.py:StorageEngine.save_blob` returns (it has no
`None` short-circuit: `json.dumps(None)` is `"null"`). -/
def blobHashLocal (v : PyValue) : String := sha256hex (dumpsLocalText v)

/-- `agent_tracer.py:StorageEngine.save_blob`: serializes with
`sort_keys=True` (falling back to `str(data)`), hashes, and writes the
text only if the hash-named file does not already exist. -/
def saveBlobLocal (v : PyValue) (st : BlobState) : String × BlobState :=
  let text := dumpsLocalText v
  let h := sha256hex text
  if (st.blobs.find? (fun e => e.1 == h)).isSome then (h, st)
  else (h, ⟨st.blobs ++ [(h, text)], st.writes ++ [h]⟩)

/-! ## A model of `json.load`

`backend/main.py:get_blob` reads the stored text back with `json.load`
unconditionally.  The parser below accepts exactly the texts produced by
the serializer above (and rejects, as `json.load` does, text that is not
JSON — in particular the `str(data)` fallback forms the claims exercise).
Recursion is by explicit fuel; `jsonLoads` supplies fuel larger than any
value's parse can consume. -/

/-- Invert `escapeChar`. -/
def unescapeChar (c : Char) : Option Char :=
  if c = '"' then some '"'
  else if c = '\\' then some '\\'
  else if c = 'n' then some '\n'
  else if c = 't' then some '\t'
  else if c = 'r' then some '\r'
  else none

/-- Read a string body up to the closing quote, undoing escapes. -/
def parseStringBody : List Char → Option (List Char × List Char)
  | [] => none
  | c :: rest =>
      if c = '"' then some ([], rest)
      else if c = '\\' then
        match rest with
        | [] => none
        | e :: rest₂ =>
            match unescapeChar e, parseStringBody rest₂ with
            | some u, some (s, r) => some (u :: s, r)
            | _, _ => none
      else
        match parseStringBody rest with
        | some (s, r) => some (c :: s, r)
        | none => none

/-- Numeric value of a digit run, most significant first. -/
def digitsToNat (ds : List Char) : Nat :=
  ds.foldl (fun a c => a * 10 + (c.toNat - 48)) 0

mutual
/-- Parse one JSON value from the head of the character list, returning it
with the unconsumed remainder. -/
def parseValue : Nat → List Char → Option (JValue × List Char)
  | 0, _ => none
  | _ + 1, [] => none
  | fuel + 1, c :: rest =>
      if c = 'n' then
        match rest with
        | 'u' :: 'l' :: 'l' :: r => some (.null, r)
        | _ => none
      else if c = 't' then
        match rest with
        | 'r' :: 'u' :: 'e' :: r => some (.bool true, r)
        | _ => none
      else if c = 'f' then
        match rest with
        | 'a' :: 'l' :: 's' :: 'e' :: r => some (.bool false, r)
        | _ => none
      else if c = '"' then
        match parseStringBody rest with
        | some (s, r) => some (.str (String.mk s), r)
        | none => none
      else if c = '[' then
        if rest.head? = some ']' then some (.arr [], rest.tail)
        else
          match parseValue fuel rest with
          | some (v, r) => parseListTail fuel [v] r
          | none => none
      else if c = '\x7b' then
        if rest.head? = some '\x7d' then some (.obj [], rest.tail)
        else if rest.head? = some '"' then
          match parseStringBody rest.tail with
          | some (k, r₂) =>
              match r₂ with
              | ':' :: ' ' :: r₃ =>
                  match parseValue fuel r₃ with
                  | some (v, r₄) => parseObjTail fuel [(String.mk k, v)] r₄
                  | none => none
              | _ => none
          | none => none
        else none
      else if c.isDigit then
        some (.num (digitsToNat (List.takeWhile Char.isDigit (c :: rest))),
          List.dropWhile Char.isDigit (c :: rest))
      else none

/-- Parse the remainder of an array after its first element. -/
def parseListTail : Nat → List JValue → List Char → Option (JValue × List Char)
  | 0, _, _ => none
  | _ + 1, _, [] => none
  | fuel + 1, acc, c :: rest =>
      if c = ']' then some (.arr acc.reverse, rest)
      else if c = ',' then
        match rest with
        | ' ' :: r₂ =>
            match parseValue fuel r₂ with
            | some (v, r) => parseListTail fuel (v :: acc) r
            | none => none
        | _ => none
      else none

/-- Parse the remainder of an object after its first entry. -/
def parseObjTail : Nat → List (String × JValue) → List Char →
    Option (JValue × List Char)
  | 0, _, _ => none
  | _ + 1, _, [] => none
  | fuel + 1, acc, c :: rest =>
      if c = '\x7d' then some (.obj acc.reverse, rest)
      else if c = ',' then
        match rest with
        | ' ' :: '"' :: rs =>
            match parseStringBody rs with
            | some (k, r₂) =>
                match r₂ with
                | ':' :: ' ' :: r₃ =>
                    match parseValue fuel r₃ with
                    | some (v, r₄) =>
                        parseObjTail fuel ((String.mk k, v) :: acc) r₄
                    | none => none
                | _ => none
            | none => none
        | _ => none
      else none
end

/-- `json.load` on a stored text: succeeds only if the whole text is one
JSON value. -/
def jsonLoads (s : String) : Option JValue :=
  match parseValue (s.data.length + 1) s.data with
  | some (v, []) => some v
  | _ => none

/-- `backend/main.py:get_blob`: `None` for a null hash or a missing file;
otherwise the result of `json.load`, which raises (`.error`) when the
stored text is not JSON. -/
def getBlob (st : BlobState) (h : Option String) : Except String (Option JValue) :=
  match h with
  | none => .ok none
  | some hh =>
      match st.lookup hh with
      | some text =>
          match jsonLoads text with
          | some v => .ok (some v)
          | none => .error "JSONDecodeError"
      | none => .ok none

/-! ## Ingestion store (`backend/main.py:ingest_span`) -/

/-- Python truthiness of an optional float, as tested by
`if span.end_time:` — `None` and `0.0` are falsy. -/
def truthyOpt (x : Option ℚ) : Bool :=
  match x with
  | none => false
  | some t => t != 0

/-- Python `x or d` on an optional float (`span.duration or 0.0`). -/
def pyOrFloat (x : Option ℚ) (d : ℚ) : ℚ :=
  match x with
  | none => d
  | some v => if v != 0 then v else d

/-- Python `int()` applied to a float: truncation toward zero. -/
def pyInt (q : ℚ) : ℤ := if 0 ≤ q then ⌊q⌋ else ⌈q⌉

/-- The body of a `POST /ingest` request (pydantic model `SpanIngest`). -/
structure SpanIngest where
  span_id : String
  trace_id : String
  parent_span_id : Option String
  name : String
  type : String
  start_time : ℚ
  end_time : Option ℚ
  duration : Option ℚ
  status : String
  error_message : Option String
  inputs : PyValue
  outputs : PyValue
  meta : List (String × JValue)
deriving Repr, DecidableEq

/-- A row of the SQLite `spans` table (`SpanModel`). -/
structure SpanRow where
  span_id : String
  trace_id : String
  parent_span_id : Option String
  name : String
  type : String
  start_time : ℚ
  end_time : Option ℚ
  duration : Option ℚ
  status : String
  error_message : Option String
  input_hash : Option String
  output_hash : Option String
  metadata_json : List (String × JValue)
deriving Repr, DecidableEq

/-- A row of the DuckDB `metrics` table. -/
structure MetricRow where
  time : ℤ
  trace_id : String
  span_id : String
  name : String
  type : String
  status : String
  duration : ℚ
  cost : ℚ
  tokens_total : ℚ
deriving Repr, DecidableEq

/-- The row `ingest_span` stores for a record: every column overwritten
with the incoming record's fields, the payload hashes computed by
`save_blob`. -/
def rowFromRecord (r : SpanIngest) : SpanRow :=
  { span_id := r.span_id
    trace_id := r.trace_id
    parent_span_id := r.parent_span_id
    name := r.name
    type := r.type
    start_time := r.start_time
    end_time := r.end_time
    duration := r.duration
    status := r.status
    error_message := r.error_message
    input_hash := blobHashBackend r.inputs
    output_hash := blobHashBackend r.outputs
    metadata_json := r.meta }

/-- `meta.get("usage", {}).get("total_tokens", 0)`, defaulting to zero when
the keys are absent (non-numeric values, which the source would pass to an
INTEGER column, are modelled as the default). -/
def tokensOfMeta (meta : List (String × JValue)) : ℚ :=
  let usage : Option JValue := (meta.find? (fun e => e.1 == "usage")).map Prod.snd
  match usage with
  | some (.obj u) =>
      let tt : Option JValue :=
        (u.find? (fun e => e.1 == "total_tokens")).map Prod.snd
      match tt with
      | some (.num n) => (n : ℚ)
      | _ => 0
  | _ => 0

/-- `meta.get("cost", 0.0)`. -/
def costOfMeta (meta : List (String × JValue)) : ℚ :=
  let c : Option JValue := (meta.find? (fun e => e.1 == "cost")).map Prod.snd
  match c with
  | some (.num n) => (n : ℚ)
  | _ => 0

/-- The metric row appended for a completed record. -/
def metricFromRecord (r : SpanIngest) : MetricRow :=
  { time := pyInt (r.start_time * 1000)
    trace_id := r.trace_id
    span_id := r.span_id
    name := r.name
    type := r.type
    status := r.status
    duration := pyOrFloat r.duration 0
    cost := costOfMeta r.meta
    tokens_total := tokensOfMeta r.meta }

/-- The upsert of `ingest_span`: update the (first) row with the incoming
`span_id` in place, overwriting every field; append a new row when none
exists. -/
def upsertSpan (rows : List SpanRow) (r : SpanIngest) : List SpanRow :=
  match rows with
  | [] => [rowFromRecord r]
  | row :: rest =>
      if row.span_id == r.span_id then rowFromRecord r :: rest
      else row :: upsertSpan rest r

/-- The collector's whole storage state: the SQLite spans table, the DuckDB
metrics table, and the blob directory. -/
structure IngestState where
  spans : List SpanRow
  metrics : List MetricRow
  blob : BlobState
deriving Repr, DecidableEq

/-- The empty collector state. -/
def IngestState.empty : IngestState := ⟨[], [], BlobState.empty⟩

/-- `backend/main.py:ingest_span` (the successful path): save the payload
blobs, upsert the span row by `span_id`, and — only when `end_time` is
truthy — append exactly one metric row. -/
def ingest (st : IngestState) (r : SpanIngest) : IngestState :=
  let blob₁ := (saveBlobBackend r.inputs st.blob).2
  let blob₂ := (saveBlobBackend r.outputs blob₁).2
  { spans := upsertSpan st.spans r
    metrics :=
      if truthyOpt r.end_time then st.metrics ++ [metricFromRecord r]
      else st.metrics
    blob := blob₂ }

/-- `ingest_span` as its HTTP caller observes it.  The handler body wraps
no statement in `try`/`except`: a raised persistence error (modelled by
`persistOk = false`, e.g. the SQLite commit or the DuckDB insert failing)
propagates out of the handler, and FastAPI answers with an error status
instead of the `{"status": "ok"}` acknowledgement. -/
def ingestResult (persistOk : Bool) (st : IngestState) (r : SpanIngest) :
    Except String (IngestState × String) :=
  if persistOk then .ok (ingest st r, "ok")
  else .error "OperationalError"

/-! ## Analytics error rate (`backend/main.py:get_analytics`) -/

/-- The SQL time filter `1=1 [AND time >= start] [AND time <= end]`. -/
def timeFilter (start? end? : Option ℤ) (t : ℤ) : Bool :=
  (match start? with | none => true | some s => decide (s ≤ t)) &&
  (match end? with | none => true | some e => decide (t ≤ e))

/-- `COUNT(CASE WHEN status = 'FAILURE' THEN 1 END)`: the number of
selected rows on which the CASE yields a non-null value. -/
def countCaseFailure : List MetricRow → Nat
  | [] => 0
  | r :: rs =>
      (if r.status == "FAILURE" then 1 else 0) + countCaseFailure rs

/-- The error-rate scalar of the dashboard query:
`failures * 100.0 / NULLIF(COUNT(*), 0)` over the rows selected by the
time filter — `none` models the SQL NULL produced when the table selection
is empty.  SQL double arithmetic is idealized as exact rational
arithmetic. -/
def errorRateRaw (rows : List MetricRow) (start? end? : Option ℤ) :
    Option ℚ :=
  let sel := rows.filter (fun r => timeFilter start? end? r.time)
  let total := sel.length
  if total = 0 then none
  else some ((countCaseFailure sel : ℚ) * 100 / (total : ℚ))

/-- The `error_rate` value the endpoint computes before responding:
`res_err[0] if res_err and res_err[0] is not None else 0.0`. -/
def errorRate (rows : List MetricRow) (start? end? : Option ℤ) : ℚ :=
  match errorRateRaw rows start? end? with
  | some q => q
  | none => 0

/-! ## Queue-based span recorder (`backend/tracer.py`) -/

/-- One operation on the context propagator's active-span variable:
`ctx_span_id.set(span_id)` (enter) or `ctx_span_id.reset(token)` (exit). -/
inductive CtxEvent where
  | enter (span_id : String)
  | exit
deriving Repr, DecidableEq

/-- A record as placed on `span_queue`: the span dict of
`_run_span_logic`.  Keys the dict does not hold yet (`end_time`,
`duration`, `outputs`, `error_message`) are `none`. -/
structure QRecord where
  span_id : String
  trace_id : String
  parent_span_id : Option String
  name : String
  type : String
  start_time : ℚ
  status : String
  inputs : PyValue
  meta : List (String × JValue)
  outputs : Option PyValue
  end_time : Option ℚ
  duration : Option ℚ
  error_message : Option String
deriving Repr, DecidableEq

/-- The tracer module's process state: the two context variables, the
delivery queue's contents (records in submission order), and the audit
trail of context enter/exit operations. -/
structure TracerState where
  ctxTrace : Option String
  ctxSpan : Option String
  queue : List QRecord
  events : List CtxEvent
deriving Repr, DecidableEq

/-- A fresh tracer process: no active context, empty queue. -/
def TracerState.empty : TracerState := ⟨none, none, [], []⟩

/-- `backend/tracer.py:_run_span_logic` on the synchronous path.  The
wrapped unit's behaviour is `call` (normal value or raised exception);
`freshTrace`/`freshSpan` are the minted UUIDs, `t0`/`t1` the two
`time.time()` readings.  Returns what the wrapper returns (the result
unchanged, or the re-raised exception) together with the new state:
the RUNNING copy is queued first, the finalized record is queued and the
context token reset in the `finally` block on both paths. -/
def runSpanLogic (st : TracerState) (freshTrace freshSpan : String)
    (t0 t1 : ℚ) (name ty : String) (meta : List (String × JValue))
    (inputs : PyValue) (call : Except PyExc PyValue) :
    Except PyExc PyValue × TracerState :=
  let traceId := match st.ctxTrace with | some t => t | none => freshTrace
  let parentId := st.ctxSpan
  let token := st.ctxSpan
  let runningRec : QRecord :=
    { span_id := freshSpan, trace_id := traceId, parent_span_id := parentId
      name := name, type := ty, start_time := t0, status := "RUNNING"
      inputs := inputs, meta := meta, outputs := none, end_time := none
      duration := none, error_message := none }
  let finalRec : QRecord :=
    { runningRec with
        outputs := match call with | .ok v => some v | .error _ => none
        status := match call with | .ok _ => "SUCCESS" | .error _ => "FAILURE"
        error_message := match call with | .ok _ => none | .error e => some e.msg
        end_time := some t1
        duration := some (t1 - t0) }
  (call,
    { ctxTrace := some traceId
      ctxSpan := token
      queue := st.queue ++ [runningRec, finalRec]
      events := st.events ++ [.enter freshSpan, .exit] })

/-- One iteration of the delivery worker (`backend/tracer.py:worker`) on a
dequeued payload: `response` is the outcome of the `requests.post` call
(a status code, or a raised connection error).  The worker catches every
failure, prints it, and moves on — it never re-raises, so a failed
delivery can never reach the traced application. -/
def workerHandle (response : Except String Nat) (log : List String) :
    List String :=
  match response with
  | .ok code =>
      if code != 200 then
        log ++ ["Tracer Error: Server returned " ++ toString code]
      else log
  | .error e => log ++ ["Tracer Connection Failed: " ++ e]

/-! ## Local-storage span recorder (`agent_tracer.py`) -/

/-- A row of the local SQLite `spans` table, as inserted by `save_span`. -/
structure LocalRow where
  span_id : String
  trace_id : String
  parent_span_id : Option String
  name : String
  type : String
  start_time : ℚ
  end_time : Option ℚ
  duration : Option ℚ
  status : String
  error_message : Option String
  input_hash : Option String
  output_hash : Option String
deriving Repr, DecidableEq

/-- The local tracer's process state: context variables, blob directory,
spans table, the printed error log, and the context-operation audit
trail. -/
structure LocalState where
  ctxTrace : Option String
  ctxSpan : Option String
  blob : BlobState
  spans : List LocalRow
  log : List String
  events : List CtxEvent
deriving Repr, DecidableEq

/-- A fresh local tracer process. -/
def LocalState.empty : LocalState := ⟨none, none, BlobState.empty, [], [], []⟩

/-- `agent_tracer.py:StorageEngine.save_span`: a plain INSERT wrapped in
`try`/`except` — on a database error (`insertOk = false`) the message is
printed and the function returns normally with the table unchanged. -/
def saveSpanLocal (insertOk : Bool) (row : LocalRow)
    (spans : List LocalRow) (log : List String) :
    List LocalRow × List String :=
  if insertOk then (spans ++ [row], log)
  else (spans, log ++ ["!! AgentTracer DB Error: OperationalError"])

/-- The synchronous path of `agent_tracer.py:trace`: `_prepare_span` plus
the input-blob save in the wrapper, then `_execute_sync`, whose `finally`
runs `_finalize_span` (set `end_time`/`duration`, `save_span`, reset the
context token) on both paths.  Exactly one record is persisted per call —
the finalized one; the RUNNING status exists only in the in-memory dict. -/
def runTraceLocal (st : LocalState) (freshTrace freshSpan : String)
    (t0 t1 : ℚ) (fname ty : String) (inputs : PyValue)
    (call : Except PyExc PyValue) (insertOk : Bool) :
    Except PyExc PyValue × LocalState :=
  let traceId := match st.ctxTrace with | some t => t | none => freshTrace
  let parentId := st.ctxSpan
  let token := st.ctxSpan
  let blob₁ := (saveBlobLocal inputs st.blob).2
  let blob₂ :=
    match call with
    | .ok v => (saveBlobLocal v blob₁).2
    | .error e =>
        (saveBlobLocal (.jsonable (.obj [("error", .str e.msg)])) blob₁).2
  let row : LocalRow :=
    { span_id := freshSpan, trace_id := traceId, parent_span_id := parentId
      name := fname, type := ty, start_time := t0, end_time := some t1
      duration := some (t1 - t0)
      status := match call with | .ok _ => "SUCCESS" | .error _ => "FAILURE"
      error_message := match call with | .ok _ => none | .error e => some e.msg
      input_hash := some (blobHashLocal inputs)
      output_hash := match call with
        | .ok v => some (blobHashLocal v)
        | .error e => some (blobHashLocal (.jsonable (.obj [("error", .str e.msg)]))) }
  (call,
    { ctxTrace := some traceId
      ctxSpan := token
      blob := blob₂
      spans := (saveSpanLocal insertOk row st.spans st.log).1
      log := (saveSpanLocal insertOk row st.spans st.log).2
      events := st.events ++ [.enter freshSpan, .exit] })

/-! ## Helper lemmas: strings, digits, escaping -/

theorem stringMk_data (s : String) : String.mk s.data = s := rfl

/-- The head of `cs` (if any) is not a decimal digit. -/
def noDigitHead : List Char → Prop
  | [] => True
  | c :: _ => c.isDigit = false

theorem natToChars_eq (n : Nat) :
    natToChars n = if n < 10 then [Char.ofNat (48 + n)]
      else natToChars (n / 10) ++ [Char.ofNat (48 + n % 10)] := by
  rw [natToChars]
  split <;> simp

theorem digitChar_isDigit {d : Nat} (h : d < 10) :
    (Char.ofNat (48 + d)).isDigit = true := by
  interval_cases d <;> decide

theorem digitChar_toNat {d : Nat} (h : d < 10) :
    (Char.ofNat (48 + d)).toNat - 48 = d := by
  interval_cases d <;> decide

theorem natToChars_all_digits (n : Nat) :
    ∀ c ∈ natToChars n, c.isDigit = true := by
  induction n using Nat.strong_induction_on with
  | _ n IH =>
    rw [natToChars_eq]
    split
    · intro c hc
      simp only [List.mem_singleton] at hc
      subst hc
      exact digitChar_isDigit (by omega)
    · intro c hc
      rcases List.mem_append.mp hc with h | h
      · exact IH (n / 10) (Nat.div_lt_self (by omega) (by omega)) c h
      · simp only [List.mem_singleton] at h
        subst h
        exact digitChar_isDigit (Nat.mod_lt _ (by omega))

theorem natToChars_ne_nil (n : Nat) : natToChars n ≠ [] := by
  rw [natToChars_eq]
  split <;> simp

theorem digitsToNat_append (l : List Char) (c : Char) :
    digitsToNat (l ++ [c]) = digitsToNat l * 10 + (c.toNat - 48) := by
  simp [digitsToNat, List.foldl_append]

theorem digitsToNat_from (n : Nat) :
    ∀ a : Nat, (natToChars n).foldl (fun a c => a * 10 + (c.toNat - 48)) a
      = a * 10 ^ (natToChars n).length + n := by
  induction n using Nat.strong_induction_on with
  | _ n IH =>
    intro a
    rw [natToChars_eq]
    split
    · simp [digitChar_toNat (show n < 10 by omega)]
    · rename_i h
      rw [List.foldl_append, IH (n / 10) (Nat.div_lt_self (by omega) (by omega)) a]
      simp only [List.foldl_cons, List.foldl_nil, List.length_append,
        List.length_singleton]
      rw [digitChar_toNat (Nat.mod_lt _ (by omega))]
      rw [pow_succ]
      have : n / 10 * 10 + n % 10 = n := by omega
      ring_nf
      omega

theorem digitsToNat_natToChars (n : Nat) : digitsToNat (natToChars n) = n := by
  have := digitsToNat_from n 0
  simpa [digitsToNat] using this

/-- The head of `rest` (if any) fails `p`. -/
def headFails (p : Char → Bool) : List Char → Prop
  | [] => True
  | c :: _ => p c = false

theorem takeWhile_all_append {p : Char → Bool} :
    ∀ (l rest : List Char), (∀ c ∈ l, p c = true) → headFails p rest →
      (l ++ rest).takeWhile p = l ∧ (l ++ rest).dropWhile p = rest := by
  intro l
  induction l with
  | nil =>
      intro rest _ hrest
      cases rest with
      | nil => simp
      | cons c cs =>
          simp only [headFails] at hrest
          simp [List.takeWhile, List.dropWhile, hrest]
  | cons c cs IH =>
      intro rest hall hrest
      have hc : p c = true := hall c (List.mem_cons_self _ _)
      have IH' := IH rest (fun x hx => hall x (List.mem_cons_of_mem _ hx)) hrest
      simp [List.takeWhile, List.dropWhile, hc, IH'.1, IH'.2]

theorem parseStringBody_escape (cs rest : List Char) :
    parseStringBody (escapeChars cs ++ '"' :: rest) = some (cs, rest) := by
  induction cs with
  | nil =>
      rw [escapeChars, List.nil_append, parseStringBody.eq_def]
      simp
  | cons c cs IH =>
      by_cases h1 : c = '"'
      · subst h1
        rw [escapeChars, escapeChar]
        simp only [if_pos rfl, List.cons_append, List.nil_append]
        rw [parseStringBody.eq_def]
        simp [unescapeChar, IH]
      · by_cases h2 : c = '\\'
        · subst h2
          rw [escapeChars, escapeChar]
          simp only [if_neg (by decide : ¬ ('\\' : Char) = '"'), if_pos rfl,
            List.cons_append, List.nil_append]
          rw [parseStringBody.eq_def]
          simp [unescapeChar, IH]
        · by_cases h3 : c = '\n'
          · subst h3
            rw [escapeChars, escapeChar]
            simp only [if_neg (by decide : ¬ ('\n' : Char) = '"'),
              if_neg (by decide : ¬ ('\n' : Char) = '\\'), if_pos rfl,
              List.cons_append, List.nil_append]
            rw [parseStringBody.eq_def]
            simp [unescapeChar, IH]
          · by_cases h4 : c = '\t'
            · subst h4
              rw [escapeChars, escapeChar]
              simp only [if_neg (by decide : ¬ ('\t' : Char) = '"'),
                if_neg (by decide : ¬ ('\t' : Char) = '\\'),
                if_neg (by decide : ¬ ('\t' : Char) = '\n'), if_pos rfl,
                List.cons_append, List.nil_append]
              rw [parseStringBody.eq_def]
              simp [unescapeChar, IH]
            · by_cases h5 : c = '\r'
              · subst h5
                rw [escapeChars, escapeChar]
                simp only [if_neg (by decide : ¬ ('\r' : Char) = '"'),
                  if_neg (by decide : ¬ ('\r' : Char) = '\\'),
                  if_neg (by decide : ¬ ('\r' : Char) = '\n'),
                  if_neg (by decide : ¬ ('\r' : Char) = '\t'), if_pos rfl,
                  List.cons_append, List.nil_append]
                rw [parseStringBody.eq_def]
                simp [unescapeChar, IH]
              · rw [escapeChars, escapeChar]
                simp only [if_neg h1, if_neg h2, if_neg h3, if_neg h4,
                  if_neg h5, List.cons_append, List.nil_append]
                rw [parseStringBody.eq_def]
                simp [h1, h2, IH]

/-! ### Parser step lemmas -/

theorem parseValue_null (g : Nat) (r : List Char) :
    parseValue (g + 1) ('n' :: 'u' :: 'l' :: 'l' :: r) = some (.null, r) := by
  rw [parseValue.eq_def]
  simp

theorem parseValue_true (g : Nat) (r : List Char) :
    parseValue (g + 1) ('t' :: 'r' :: 'u' :: 'e' :: r) = some (.bool true, r) := by
  rw [parseValue.eq_def]
  simp

theorem parseValue_false (g : Nat) (r : List Char) :
    parseValue (g + 1) ('f' :: 'a' :: 'l' :: 's' :: 'e' :: r) =
      some (.bool false, r) := by
  rw [parseValue.eq_def]
  simp

theorem parseValue_quote (g : Nat) (cs : List Char) :
    parseValue (g + 1) ('"' :: cs) =
      match parseStringBody cs with
      | some (s, r) => some (.str (String.mk s), r)
      | none => none := by
  rw [parseValue.eq_def]
  simp

theorem parseValue_arr_empty (g : Nat) (r : List Char) :
    parseValue (g + 1) ('[' :: ']' :: r) = some (.arr [], r) := by
  rw [parseValue.eq_def]
  simp

theorem parseValue_arr_cons (g : Nat) (cs : List Char)
    (h : cs.head? ≠ some ']') :
    parseValue (g + 1) ('[' :: cs) =
      match parseValue g cs with
      | some (v, r) => parseListTail g [v] r
      | none => none := by
  rw [parseValue.eq_def]
  simp [h]

theorem parseValue_obj_empty (g : Nat) (r : List Char) :
    parseValue (g + 1) ('\x7b' :: '\x7d' :: r) = some (.obj [], r) := by
  rw [parseValue.eq_def]
  simp

theorem parseValue_obj_cons (g : Nat) (rs : List Char) :
    parseValue (g + 1) ('\x7b' :: '"' :: rs) =
      match parseStringBody rs with
      | some (k, r₂) =>
          match r₂ with
          | ':' :: ' ' :: r₃ =>
              match parseValue g r₃ with
              | some (v, r₄) => parseObjTail g [(String.mk k, v)] r₄
              | none => none
          | _ => none
      | none => none := by
  rw [parseValue.eq_def]
  simp

theorem parseValue_digit (g : Nat) (c : Char) (rest : List Char)
    (h : c.isDigit = true) :
    parseValue (g + 1) (c :: rest) =
      some (.num (digitsToNat ((c :: rest).takeWhile Char.isDigit)),
        (c :: rest).dropWhile Char.isDigit) := by
  have hn : ¬ c = 'n' := by rintro rfl; simp at h
  have ht : ¬ c = 't' := by rintro rfl; simp at h
  have hf : ¬ c = 'f' := by rintro rfl; simp at h
  have hq : ¬ c = '"' := by rintro rfl; simp at h
  have hb : ¬ c = '[' := by rintro rfl; simp at h
  have hc : ¬ c = '\x7b' := by rintro rfl; simp at h
  rw [parseValue.eq_def]
  simp [hn, ht, hf, hq, hb, hc, h]

theorem parseListTail_close (g : Nat) (acc : List JValue) (r : List Char) :
    parseListTail (g + 1) acc (']' :: r) = some (.arr acc.reverse, r) := by
  rw [parseListTail.eq_def]
  simp

theorem parseListTail_comma (g : Nat) (acc : List JValue) (r : List Char) :
    parseListTail (g + 1) acc (',' :: ' ' :: r) =
      match parseValue g r with
      | some (v, r') => parseListTail g (v :: acc) r'
      | none => none := by
  rw [parseListTail.eq_def]
  simp

theorem parseObjTail_close (g : Nat) (acc : List (String × JValue))
    (r : List Char) :
    parseObjTail (g + 1) acc ('\x7d' :: r) = some (.obj acc.reverse, r) := by
  rw [parseObjTail.eq_def]
  simp

theorem parseObjTail_comma (g : Nat) (acc : List (String × JValue))
    (rs : List Char) :
    parseObjTail (g + 1) acc (',' :: ' ' :: '"' :: rs) =
      match parseStringBody rs with
      | some (k, r₂) =>
          match r₂ with
          | ':' :: ' ' :: r₃ =>
              match parseValue g r₃ with
              | some (v, r₄) => parseObjTail g ((String.mk k, v) :: acc) r₄
              | none => none
          | _ => none
      | none => none := by
  rw [parseObjTail.eq_def]
  simp

theorem natToChars_head (n : Nat) :
    ∃ c cs, natToChars n = c :: cs ∧ c.isDigit = true := by
  induction n using Nat.strong_induction_on with
  | _ n IH =>
    rw [natToChars_eq]
    split
    · exact ⟨_, _, rfl, digitChar_isDigit (by omega)⟩
    · obtain ⟨c, cs, hc, hd⟩ := IH (n / 10) (Nat.div_lt_self (by omega) (by omega))
      exact ⟨c, cs ++ [Char.ofNat (48 + n % 10)], by rw [hc]; simp, hd⟩

/-- Every serialized value starts with one of the characters the parser
dispatches on. -/
theorem dumpVal_head (v : JValue) :
    ∃ c cs, dumpVal v = c :: cs ∧
      (c = 'n' ∨ c = 't' ∨ c = 'f' ∨ c = '"' ∨ c = '[' ∨ c = '\x7b' ∨
        c.isDigit = true) := by
  cases v with
  | null => exact ⟨'n', _, rfl, by tauto⟩
  | bool b =>
      cases b with
      | false => exact ⟨'f', _, rfl, by tauto⟩
      | true => exact ⟨'t', _, rfl, by tauto⟩
  | num n =>
      obtain ⟨c, cs, hc, hd⟩ := natToChars_head n
      exact ⟨c, cs, by rw [dumpVal, hc], by tauto⟩
  | str s => exact ⟨'"', _, rfl, by tauto⟩
  | arr l => cases l with
      | nil => exact ⟨'[', _, rfl, by tauto⟩
      | cons x xs => exact ⟨'[', _, rfl, by tauto⟩
  | obj l => cases l with
      | nil => exact ⟨'\x7b', _, rfl, by tauto⟩
      | cons kv kvs => obtain ⟨k, v⟩ := kv
                       exact ⟨'\x7b', _, rfl, by tauto⟩

theorem dumpVal_head_ne_rbracket (v : JValue) (rest : List Char) :
    (dumpVal v ++ rest).head? ≠ some ']' := by
  obtain ⟨c, cs, hc, hd⟩ := dumpVal_head v
  rw [hc]
  simp only [List.cons_append, List.head?_cons, ne_eq, Option.some.injEq]
  rintro rfl
  rcases hd with h | h | h | h | h | h | h <;> simp_all

theorem noDigitHead_listTail (ys : List JValue) (rest : List Char) :
    noDigitHead (dumpListTail ys ++ ']' :: rest) := by
  cases ys with
  | nil => simp [dumpListTail, noDigitHead]
  | cons y ys => simp [dumpListTail, noDigitHead]

theorem noDigitHead_objTail (kvs : List (String × JValue)) (rest : List Char) :
    noDigitHead (dumpObjTail kvs ++ '\x7d' :: rest) := by
  cases kvs with
  | nil => simp [dumpObjTail, noDigitHead]
  | cons kv kvs => obtain ⟨k, v⟩ := kv
                   simp [dumpObjTail, noDigitHead]

mutual
/-- Fuel needed by `parseValue` to parse the serialization of a value. -/
def jweightV : JValue → Nat
  | .null => 1
  | .bool _ => 1
  | .num _ => 1
  | .str _ => 1
  | .arr l => 1 + jweightL l
  | .obj l => 1 + jweightP l

def jweightL : List JValue → Nat
  | [] => 1
  | x :: xs => 1 + max (jweightV x) (jweightL xs)

def jweightP : List (String × JValue) → Nat
  | [] => 1
  | (_, v) :: kvs => 1 + max (jweightV v) (jweightP kvs)
end

theorem jweightV_pos (v : JValue) : 1 ≤ jweightV v := by
  cases v <;> simp [jweightV]

theorem jweightL_pos (l : List JValue) : 1 ≤ jweightL l := by
  cases l with
  | nil => simp [jweightL]
  | cons x xs => simp only [jweightL]; omega

theorem jweightP_pos (l : List (String × JValue)) : 1 ≤ jweightP l := by
  cases l with
  | nil => simp [jweightP]
  | cons kv kvs =>
      obtain ⟨k, v⟩ := kv
      simp only [jweightP]
      omega

/-- The parser–serializer round trip, with enough fuel: parsing the
serialization of `v` followed by any non-digit-headed remainder yields
exactly `v` and the remainder. -/
theorem parse_dump_master : ∀ fuel : Nat,
    (∀ v rest, jweightV v ≤ fuel → noDigitHead rest →
      parseValue fuel (dumpVal v ++ rest) = some (v, rest)) ∧
    (∀ xs acc rest, jweightL xs ≤ fuel →
      parseListTail fuel acc (dumpListTail xs ++ ']' :: rest) =
        some (.arr (acc.reverse ++ xs), rest)) ∧
    (∀ kvs acc rest, jweightP kvs ≤ fuel →
      parseObjTail fuel acc (dumpObjTail kvs ++ '\x7d' :: rest) =
        some (.obj (acc.reverse ++ kvs), rest)) := by
  intro fuel
  induction fuel using Nat.strong_induction_on with
  | _ fuel IH =>
    cases fuel with
    | zero =>
        refine ⟨?_, ?_, ?_⟩
        · intro v rest hw _
          exact absurd hw (by have := jweightV_pos v; omega)
        · intro xs acc rest hw
          exact absurd hw (by have := jweightL_pos xs; omega)
        · intro kvs acc rest hw
          exact absurd hw (by have := jweightP_pos kvs; omega)
    | succ g =>
        obtain ⟨Pg, Qg, Rg⟩ := IH g (Nat.lt_succ_self g)
        refine ⟨?_, ?_, ?_⟩
        · -- values
          intro v rest hw hrest
          cases v with
          | null => rw [dumpVal]; exact parseValue_null g rest
          | bool b =>
              cases b
              · rw [dumpVal]; exact parseValue_false g rest
              · rw [dumpVal]; exact parseValue_true g rest
          | num n =>
              rw [dumpVal]
              obtain ⟨c, cs, hc, hd⟩ := natToChars_head n
              have hall := natToChars_all_digits n
              have htd := takeWhile_all_append (p := Char.isDigit)
                (natToChars n) rest hall
                (by cases rest with
                    | nil => trivial
                    | cons r rs => simpa [headFails, noDigitHead] using hrest)
              rw [hc]
              have hd' : c.isDigit = true := hall c (by rw [hc]; simp)
              rw [List.cons_append, parseValue_digit g c (cs ++ rest) hd']
              rw [← List.cons_append, ← hc, htd.1, htd.2,
                digitsToNat_natToChars]
          | str s =>
              rw [dumpVal]
              rw [List.cons_append, parseValue_quote g]
              rw [List.append_assoc, List.singleton_append,
                parseStringBody_escape]
          | arr l =>
              cases l with
              | nil => rw [dumpVal]; exact parseValue_arr_empty g rest
              | cons x xs =>
                  rw [dumpVal]
                  have hw' : jweightV x ≤ g ∧ jweightL xs ≤ g := by
                    simp only [jweightV, jweightL] at hw
                    constructor <;> omega
                  rw [List.cons_append, List.append_assoc, List.append_assoc,
                    List.singleton_append]
                  rw [parseValue_arr_cons g _
                    (dumpVal_head_ne_rbracket x (dumpListTail xs ++ ']' :: rest))]
                  rw [Pg x (dumpListTail xs ++ ']' :: rest) hw'.1
                    (noDigitHead_listTail xs rest)]
                  have := Qg xs [x] rest hw'.2
                  simpa using this
          | obj l =>
              cases l with
              | nil => rw [dumpVal]; exact parseValue_obj_empty g rest
              | cons kv kvs =>
                  obtain ⟨k, v⟩ := kv
                  rw [dumpVal]
                  have hw' : jweightV v ≤ g ∧ jweightP kvs ≤ g := by
                    simp only [jweightV, jweightP] at hw
                    constructor <;> omega
                  rw [List.cons_append, List.cons_append,
                    parseValue_obj_cons g]
                  have harr : escapeChars k.data ++ ['"', ':', ' '] ++ dumpVal v
                      ++ dumpObjTail kvs ++ ['\x7d'] ++ rest =
                      escapeChars k.data ++ '"' :: ':' :: ' ' ::
                        (dumpVal v ++ (dumpObjTail kvs ++ '\x7d' :: rest)) := by
                    simp
                  rw [harr, parseStringBody_escape]
                  simp only [Pg v (dumpObjTail kvs ++ '\x7d' :: rest) hw'.1
                    (noDigitHead_objTail kvs rest)]
                  have := Rg kvs [(String.mk k.data, v)] rest hw'.2
                  simpa [stringMk_data] using this
        · -- array tails
          intro xs acc rest hw
          cases xs with
          | nil =>
              rw [dumpListTail, List.nil_append, parseListTail_close]
              simp
          | cons y ys =>
              rw [dumpListTail]
              have hw' : jweightV y ≤ g ∧ jweightL ys ≤ g := by
                simp only [jweightL] at hw
                constructor <;> omega
              rw [List.cons_append, List.cons_append, List.append_assoc]
              rw [parseListTail_comma g]
              rw [Pg y (dumpListTail ys ++ ']' :: rest) hw'.1
                (noDigitHead_listTail ys rest)]
              have := Qg ys (y :: acc) rest hw'.2
              simpa using this
        · -- object tails
          intro kvs acc rest hw
          cases kvs with
          | nil =>
              rw [dumpObjTail, List.nil_append, parseObjTail_close]
              simp
          | cons kv kvs' =>
              obtain ⟨k, v⟩ := kv
              rw [dumpObjTail]
              have hw' : jweightV v ≤ g ∧ jweightP kvs' ≤ g := by
                simp only [jweightP] at hw
                constructor <;> omega
              rw [List.cons_append, List.cons_append, List.cons_append]
              rw [parseObjTail_comma g]
              have harr : (escapeChars k.data ++ ['"', ':', ' '] ++ dumpVal v
                  ++ dumpObjTail kvs') ++ '\x7d' :: rest =
                  escapeChars k.data ++ '"' :: ':' :: ' ' ::
                    (dumpVal v ++ (dumpObjTail kvs' ++ '\x7d' :: rest)) := by
                simp
              rw [harr, parseStringBody_escape]
              simp only [Pg v (dumpObjTail kvs' ++ '\x7d' :: rest) hw'.1
                (noDigitHead_objTail kvs' rest)]
              have := Rg kvs' ((String.mk k.data, v) :: acc) rest hw'.2
              simpa [stringMk_data] using this

mutual
theorem jweightV_le : ∀ v : JValue, jweightV v ≤ (dumpVal v).length + 1
  | .null => by simp [jweightV, dumpVal]
  | .bool b => by cases b <;> simp [jweightV, dumpVal]
  | .num n => by simp only [jweightV]; omega
  | .str s => by simp only [jweightV]; omega
  | .arr [] => by simp [jweightV, jweightL, dumpVal]
  | .arr (x :: xs) => by
      have h1 := jweightV_le x
      have h2 := jweightL_le xs
      simp only [jweightV, jweightL, dumpVal, List.length_cons,
        List.length_append]
      omega
  | .obj [] => by simp [jweightV, jweightP, dumpVal]
  | .obj ((k, v) :: kvs) => by
      have h1 := jweightV_le v
      have h2 := jweightP_le kvs
      simp only [jweightV, jweightP, dumpVal, List.length_cons,
        List.length_append]
      omega

theorem jweightL_le : ∀ l : List JValue, jweightL l ≤ (dumpListTail l).length + 1
  | [] => by simp [jweightL, dumpListTail]
  | x :: xs => by
      have h1 := jweightV_le x
      have h2 := jweightL_le xs
      simp only [jweightL, dumpListTail, List.length_cons, List.length_append]
      omega

theorem jweightP_le : ∀ l : List (String × JValue),
    jweightP l ≤ (dumpObjTail l).length + 1
  | [] => by simp [jweightP, dumpObjTail]
  | (k, v) :: kvs => by
      have h1 := jweightV_le v
      have h2 := jweightP_le kvs
      simp only [jweightP, dumpObjTail, List.length_cons, List.length_append]
      omega
end

/-- Reading back the serialization of any value succeeds and returns the
value itself. -/
theorem jsonLoads_dump (v : JValue) :
    jsonLoads (String.mk (dumpVal v)) = some v := by
  unfold jsonLoads
  have hm := (parse_dump_master ((dumpVal v).length + 1)).1 v []
    (by have := jweightV_le v; omega) trivial
  rw [List.append_nil] at hm
  have hdata : (String.mk (dumpVal v)).data = dumpVal v := rfl
  rw [hdata, hm]

/-! ### Key-sorting lemmas (`sort_keys=True`) -/

/-- Nondecreasing key order on object entries. -/
def keyLE (a b : String × JValue) : Prop := a.1 ≤ b.1

theorem insertPair_perm (p : String × JValue) (l : List (String × JValue)) :
    List.Perm (insertPair p l) (p :: l) := by
  induction l with
  | nil => simp [insertPair]
  | cons q qs IH =>
      rw [insertPair]
      split
      · exact List.Perm.refl _
      · exact ((IH.cons q).trans (List.Perm.swap p q qs)).symm.symm

theorem sortPairs_perm (l : List (String × JValue)) :
    List.Perm (sortPairs l) l := by
  induction l with
  | nil => simp [sortPairs]
  | cons p ps IH =>
      rw [sortPairs]
      exact (insertPair_perm p (sortPairs ps)).trans (IH.cons p)

theorem insertPair_sorted (p : String × JValue) (l : List (String × JValue))
    (hl : l.Pairwise keyLE) : (insertPair p l).Pairwise keyLE := by
  induction l with
  | nil => simp [insertPair, List.pairwise_cons]
  | cons q qs IH =>
      rw [insertPair]
      rw [List.pairwise_cons] at hl
      split
      · rename_i hlt
        rw [List.pairwise_cons]
        constructor
        · intro x hx
          rcases List.mem_cons.mp hx with rfl | hx
          · exact le_of_lt hlt
          · exact le_trans (le_of_lt hlt) (hl.1 x hx)
        · rw [List.pairwise_cons]
          exact hl
      · rename_i hnlt
        rw [List.pairwise_cons]
        constructor
        · intro x hx
          have hx' : x ∈ p :: qs := (insertPair_perm p qs).mem_iff.mp hx
          rcases List.mem_cons.mp hx' with rfl | hx'
          · exact le_of_not_lt hnlt
          · exact hl.1 x hx'
        · exact IH hl.2

theorem sortPairs_sorted (l : List (String × JValue)) :
    (sortPairs l).Pairwise keyLE := by
  induction l with
  | nil => simp [sortPairs]
  | cons p ps IH => exact insertPair_sorted p (sortPairs ps) IH

/-- A key-sorted entry list with no duplicate keys is determined by its
multiset of entries. -/
theorem sorted_perm_eq :
    ∀ (l₁ l₂ : List (String × JValue)), List.Perm l₁ l₂ →
      l₁.Pairwise keyLE → l₂.Pairwise keyLE → (l₁.map Prod.fst).Nodup →
      l₁ = l₂ := by
  intro l₁
  induction l₁ with
  | nil =>
      intro l₂ hp _ _ _
      exact hp.nil_eq
  | cons a t₁ IH =>
      intro l₂ hp hs₁ hs₂ hnd
      cases l₂ with
      | nil => exact absurd hp.symm.nil_eq (by simp)
      | cons b t₂ =>
          have hab : a = b := by
            by_contra hne
            have ha : a ∈ b :: t₂ := hp.mem_iff.mp (List.mem_cons_self a t₁)
            have hb : b ∈ a :: t₁ := hp.symm.mem_iff.mp (List.mem_cons_self b t₂)
            have ha' : a ∈ t₂ := by
              rcases List.mem_cons.mp ha with h | h
              · exact absurd h hne
              · exact h
            have hb' : b ∈ t₁ := by
              rcases List.mem_cons.mp hb with h | h
              · exact absurd h.symm hne
              · exact h
            rw [List.pairwise_cons] at hs₁ hs₂
            have h₁ : a.1 ≤ b.1 := hs₁.1 b hb'
            have h₂ : b.1 ≤ a.1 := hs₂.1 a ha'
            have hkey : a.1 = b.1 := le_antisymm h₁ h₂
            rw [List.map_cons, List.nodup_cons] at hnd
            exact hnd.1 (hkey ▸ List.mem_map_of_mem Prod.fst hb')
          subst hab
          have ht : List.Perm t₁ t₂ := hp.cons_inv
          rw [List.pairwise_cons] at hs₁ hs₂
          rw [List.map_cons, List.nodup_cons] at hnd
          rw [IH t₂ ht hs₁.2 hs₂.2 hnd.2]

theorem sortPairs_eq_of_perm (l₁ l₂ : List (String × JValue))
    (hp : List.Perm l₁ l₂) (hnd : (l₁.map Prod.fst).Nodup) :
    sortPairs l₁ = sortPairs l₂ := by
  have hperm : List.Perm (sortPairs l₁) (sortPairs l₂) :=
    ((sortPairs_perm l₁).trans hp).trans (sortPairs_perm l₂).symm
  have hnd' : ((sortPairs l₁).map Prod.fst).Nodup :=
    (((sortPairs_perm l₁).map Prod.fst).nodup_iff).mpr hnd
  exact sorted_perm_eq _ _ hperm (sortPairs_sorted l₁) (sortPairs_sorted l₂) hnd'

theorem sortKeysPairs_eq_map (l : List (String × JValue)) :
    sortKeysPairs l = l.map (fun p => (p.1, sortKeysRec p.2)) := by
  induction l with
  | nil => simp [sortKeysPairs]
  | cons kv kvs IH =>
      obtain ⟨k, v⟩ := kv
      rw [sortKeysPairs, IH]
      simp

/-- With `sort_keys=True`, two objects holding the same entries in
different insertion orders canonicalize to the same text. -/
theorem dumpsLocal_obj_perm (l₁ l₂ : List (String × JValue))
    (hp : List.Perm l₁ l₂) (hnd : (l₁.map Prod.fst).Nodup) :
    dumpsLocalText (.jsonable (.obj l₁)) = dumpsLocalText (.jsonable (.obj l₂)) := by
  rw [dumpsLocalText, dumpsLocalText, sortKeysRec, sortKeysRec]
  have hpm : List.Perm (sortKeysPairs l₁) (sortKeysPairs l₂) := by
    rw [sortKeysPairs_eq_map, sortKeysPairs_eq_map]
    exact hp.map _
  have hndm : ((sortKeysPairs l₁).map Prod.fst).Nodup := by
    rw [sortKeysPairs_eq_map, List.map_map]
    exact hnd
  rw [sortPairs_eq_of_perm _ _ hpm hndm]

/-! ### Blob-store and upsert lemmas -/

theorem saveBlobBackend_fst (v : PyValue) (st : BlobState) :
    (saveBlobBackend v st).1 = blobHashBackend v := by
  cases v with
  | jsonable j => cases j <;> rfl
  | raw s => rfl

theorem saveBlobLocal_fst (v : PyValue) (st : BlobState) :
    (saveBlobLocal v st).1 = blobHashLocal v := by
  rw [saveBlobLocal, blobHashLocal]
  split <;> rfl

theorem find?_overwrite (bs : List (String × String)) (h t : String) :
    (BlobState.overwrite bs h t).find? (fun e => e.1 == h) = some (h, t) := by
  induction bs with
  | nil => simp [BlobState.overwrite, List.find?]
  | cons e es IH =>
      rw [BlobState.overwrite]
      split
      · rename_i heq
        simp [List.find?]
      · rename_i hne
        rw [List.find?]
        simp only [hne]
        exact IH

theorem find?_append_singleton_isSome {α : Type} (bs : List α) (p : α → Bool)
    (e : α) (he : p e = true) : ((bs ++ [e]).find? p).isSome = true := by
  induction bs with
  | nil => simp [List.find?, he]
  | cons b bs IH =>
      rw [List.cons_append, List.find?]
      split
      · rfl
      · exact IH

theorem rowFromRecord_span_id (r : SpanIngest) :
    (rowFromRecord r).span_id = r.span_id := rfl

theorem upsertSpan_mem_ids (rows : List SpanRow) (r : SpanIngest) (x : String)
    (hx : x ∈ (upsertSpan rows r).map SpanRow.span_id) :
    x ∈ rows.map SpanRow.span_id ∨ x = r.span_id := by
  induction rows with
  | nil =>
      right
      simpa [upsertSpan, rowFromRecord] using hx
  | cons row rest IH =>
      rw [upsertSpan] at hx
      split at hx
      · rw [List.map_cons, List.mem_cons] at hx
        rcases hx with h | h
        · right; rw [h, rowFromRecord_span_id]
        · left; rw [List.map_cons, List.mem_cons]; right; exact h
      · rw [List.map_cons, List.mem_cons] at hx
        rcases hx with h | h
        · left; rw [List.map_cons, List.mem_cons]; left; exact h
        · rcases IH h with h' | h'
          · left; rw [List.map_cons, List.mem_cons]; right; exact h'
          · right; exact h'

theorem upsertSpan_nodup (rows : List SpanRow) (r : SpanIngest)
    (h : (rows.map SpanRow.span_id).Nodup) :
    ((upsertSpan rows r).map SpanRow.span_id).Nodup := by
  induction rows with
  | nil => simp [upsertSpan]
  | cons row rest IH =>
      rw [List.map_cons, List.nodup_cons] at h
      rw [upsertSpan]
      split
      · rename_i heq
        rw [List.map_cons, List.nodup_cons]
        refine ⟨?_, h.2⟩
        rw [rowFromRecord_span_id]
        intro hmem
        exact h.1 ((beq_iff_eq.mp heq) ▸ hmem)
      · rename_i hne
        rw [List.map_cons, List.nodup_cons]
        refine ⟨?_, IH h.2⟩
        intro hmem
        rcases upsertSpan_mem_ids rest r _ hmem with h' | h'
        · exact h.1 h'
        · exact absurd (by simp [h']) hne

theorem upsertSpan_filter (rows : List SpanRow) (r : SpanIngest)
    (h : (rows.map SpanRow.span_id).Nodup) :
    (upsertSpan rows r).filter (fun row => row.span_id == r.span_id) =
      [rowFromRecord r] := by
  induction rows with
  | nil => simp [upsertSpan, List.filter, rowFromRecord]
  | cons row rest IH =>
      rw [List.map_cons, List.nodup_cons] at h
      rw [upsertSpan]
      split
      · rename_i heq
        have hrest : rest.filter (fun row => row.span_id == r.span_id) = [] := by
          rw [List.filter_eq_nil_iff]
          intro q hq hqeq
          have hq1 : q.span_id = r.span_id := beq_iff_eq.mp hqeq
          have hr1 : row.span_id = r.span_id := beq_iff_eq.mp heq
          apply h.1
          rw [hr1, ← hq1]
          exact List.mem_map_of_mem SpanRow.span_id hq
        rw [List.filter_cons]
        simp only [rowFromRecord_span_id, beq_self_eq_true, if_pos]
        rw [hrest]
      · rename_i hne
        rw [List.filter]
        simp only [hne]
        exact IH h.2

theorem countCaseFailure_eq_filter (l : List MetricRow) :
    countCaseFailure l =
      (l.filter (fun r => r.status == "FAILURE")).length := by
  induction l with
  | nil => simp [countCaseFailure]
  | cons r rs IH =>
      rw [countCaseFailure, List.filter_cons]
      by_cases h : r.status = "FAILURE"
      · have hb : (r.status == "FAILURE") = true := by simp [h]
        rw [hb]
        simp only [if_pos, List.length_cons, IH]
        omega
      · have hb : (r.status == "FAILURE") = false := by simp [h]
        rw [hb]
        simp [IH]

/-- The RUNNING beacon `_run_span_logic` queues first, as a function of the
pre-call state and parameters. -/
def beaconRecOf (st : TracerState) (freshTrace freshSpan : String) (t0 : ℚ)
    (name ty : String) (meta : List (String × JValue)) (inputs : PyValue) :
    QRecord :=
  { span_id := freshSpan
    trace_id := match st.ctxTrace with | some t => t | none => freshTrace
    parent_span_id := st.ctxSpan
    name := name, type := ty, start_time := t0, status := "RUNNING"
    inputs := inputs, meta := meta, outputs := none, end_time := none
    duration := none, error_message := none }

/-- The finalized record `_run_span_logic` queues second. -/
def finalRecOf (st : TracerState) (freshTrace freshSpan : String) (t0 t1 : ℚ)
    (name ty : String) (meta : List (String × JValue)) (inputs : PyValue)
    (call : Except PyExc PyValue) : QRecord :=
  { beaconRecOf st freshTrace freshSpan t0 name ty meta inputs with
      outputs := match call with | .ok v => some v | .error _ => none
      status := match call with | .ok _ => "SUCCESS" | .error _ => "FAILURE"
      error_message := match call with | .ok _ => none | .error e => some e.msg
      end_time := some t1
      duration := some (t1 - t0) }

theorem runSpanLogic_queue (st : TracerState) (fT fS : String) (t0 t1 : ℚ)
    (nm ty : String) (meta : List (String × JValue)) (inp : PyValue)
    (call : Except PyExc PyValue) :
    (runSpanLogic st fT fS t0 t1 nm ty meta inp call).2.queue =
      st.queue ++ [beaconRecOf st fT fS t0 nm ty meta inp,
        finalRecOf st fT fS t0 t1 nm ty meta inp call] := rfl

theorem saveBlobBackend_ne_null (v : PyValue) (st : BlobState)
    (hv : v ≠ .jsonable .null) :
    saveBlobBackend v st =
      (some (sha256hex (dumpsBackendText v)),
        ⟨BlobState.overwrite st.blobs (sha256hex (dumpsBackendText v))
            (dumpsBackendText v),
          st.writes ++ [sha256hex (dumpsBackendText v)]⟩) := by
  cases v with
  | jsonable j => cases j with
      | null => exact absurd rfl hv
      | bool b => rfl
      | num n => rfl
      | str s => rfl
      | arr l => rfl
      | obj l => rfl
  | raw s => rfl

theorem filter_key_nil_of_notmem (bs : List (String × String)) (h : String)
    (hno : h ∉ bs.map Prod.fst) :
    bs.filter (fun e => e.1 == h) = [] := by
  rw [List.filter_eq_nil_iff]
  intro e he heq
  exact hno (beq_iff_eq.mp heq ▸ List.mem_map_of_mem Prod.fst he)

theorem filter_key_one_of_mem (bs : List (String × String)) (h : String)
    (hnd : (bs.map Prod.fst).Nodup) (hm : h ∈ bs.map Prod.fst) :
    (bs.filter (fun e => e.1 == h)).length = 1 := by
  induction bs with
  | nil => simp at hm
  | cons e es IH =>
      rw [List.map_cons, List.nodup_cons] at hnd
      rw [List.map_cons, List.mem_cons] at hm
      rw [List.filter_cons]
      rcases hm with hm | hm
      · have hb : (e.1 == h) = true := by simp [hm]
        rw [hb]
        have : es.filter (fun e => e.1 == h) = [] :=
          filter_key_nil_of_notmem es h (hm ▸ hnd.1)
        simp [this]
      · have hne : e.1 ≠ h := by
          intro hcontra
          exact hnd.1 (hcontra ▸ hm)
        have hb : (e.1 == h) = false := by simp [hne]
        simp only [hb, Bool.false_eq_true, if_false]
        exact IH hnd.2 hm

theorem overwrite_filter_one (bs : List (String × String)) (h t : String)
    (hnd : (bs.map Prod.fst).Nodup) :
    ((BlobState.overwrite bs h t).filter (fun e => e.1 == h)).length = 1 := by
  induction bs with
  | nil => simp [BlobState.overwrite, List.filter]
  | cons e es IH =>
      rw [List.map_cons, List.nodup_cons] at hnd
      rw [BlobState.overwrite]
      split
      · rename_i heq
        rw [List.filter_cons]
        simp only [beq_self_eq_true, if_pos]
        have : es.filter (fun e => e.1 == h) = [] :=
          filter_key_nil_of_notmem es h ((beq_iff_eq.mp heq) ▸ hnd.1)
        simp [this]
      · rename_i hne
        rw [List.filter_cons]
        simp only [hne]
        exact IH hnd.2

theorem find?_of_mem_key (bs : List (String × String)) (h : String)
    (hm : h ∈ bs.map Prod.fst) : (bs.find? (fun e => e.1 == h)).isSome = true := by
  induction bs with
  | nil => simp at hm
  | cons e es IH =>
      rw [List.map_cons, List.mem_cons] at hm
      rw [List.find?]
      rcases hm with hm | hm
      · have hb : (e.1 == h) = true := by simp [hm]
        rw [hb]
        rfl
      · split
        · rfl
        · exact IH hm

/-! ## Claim theorems -/

/-- **C1.** For every RUNNING span record `r1` and every finalized record
`r2` sharing the same `span_id`, calling `ingest(r1)` and then `ingest(r2)`
leaves exactly one stored span row for that `span_id`, and every field of
that row equals the corresponding field of `r2` (the beacon is fully
superseded, never duplicated).  The span-id nodup hypothesis is the
primary-key invariant of the `spans` table. -/
theorem C1_upsert_supersedes (st : IngestState) (r1 r2 : SpanIngest)
    (hnd : (st.spans.map SpanRow.span_id).Nodup)
    (hid : r1.span_id = r2.span_id)
    (hr1 : r1.status = "RUNNING")
    (hr2 : truthyOpt r2.end_time = true) :
    ((ingest (ingest st r1) r2).spans).filter
      (fun row => row.span_id == r2.span_id) = [rowFromRecord r2] := by
  have h2 : (ingest (ingest st r1) r2).spans =
      upsertSpan (upsertSpan st.spans r1) r2 := by
    simp [ingest]
  rw [h2]
  exact upsertSpan_filter _ _ (upsertSpan_nodup _ _ hnd)

/-- A sample RUNNING beacon record. -/
def sampleR1 : SpanIngest :=
  { span_id := "span-1", trace_id := "trace-1", parent_span_id := none
    name := "handle", type := "function", start_time := 1, end_time := none
    duration := none, status := "RUNNING", error_message := none
    inputs := .jsonable (.obj [("args", .arr [.str "x"])])
    outputs := .jsonable .null, meta := [] }

/-- The finalized counterpart of `sampleR1`. -/
def sampleR2 : SpanIngest :=
  { sampleR1 with status := "SUCCESS", end_time := some 2, duration := some 1
                  outputs := .jsonable (.num 42) }

theorem C1_upsert_supersedes_witness :
    ((IngestState.empty.spans.map SpanRow.span_id).Nodup ∧
      sampleR1.span_id = sampleR2.span_id ∧ sampleR1.status = "RUNNING" ∧
      truthyOpt sampleR2.end_time = true) ∧
    ((ingest (ingest IngestState.empty sampleR1) sampleR2).spans).filter
      (fun row => row.span_id == sampleR2.span_id) = [rowFromRecord sampleR2] :=
  ⟨⟨by decide, rfl, rfl, by decide⟩,
    C1_upsert_supersedes IngestState.empty sampleR1 sampleR2
      (by decide) rfl rfl (by decide)⟩

/-- **C4.** For every instrumented call, in both pipelines, the active span
id observed after the call equals the active span id observed before it,
on the normal-return path and the error path alike, and the context
operations performed are exactly one enter of the fresh span id and one
matching exit. -/
theorem C4_context_restored (st : TracerState) (fT fS : String) (t0 t1 : ℚ)
    (nm ty : String) (meta : List (String × JValue)) (inp : PyValue)
    (call : Except PyExc PyValue) (lst : LocalState) (fT' fS' : String)
    (t0' t1' : ℚ) (nm' ty' : String) (inp' : PyValue)
    (call' : Except PyExc PyValue) (insertOk : Bool) :
    ((runSpanLogic st fT fS t0 t1 nm ty meta inp call).2.ctxSpan =
        st.ctxSpan ∧
      (runSpanLogic st fT fS t0 t1 nm ty meta inp call).2.events =
        st.events ++ [.enter fS, .exit]) ∧
    ((runTraceLocal lst fT' fS' t0' t1' nm' ty' inp' call' insertOk).2.ctxSpan =
        lst.ctxSpan ∧
      (runTraceLocal lst fT' fS' t0' t1' nm' ty' inp' call' insertOk).2.events =
        lst.events ++ [.enter fS', .exit]) :=
  ⟨⟨rfl, rfl⟩, rfl, rfl⟩

/-- **C9.** Over any set of N metric rows selected by the dashboard's time
filter, of which K have status FAILURE, the error rate the endpoint
computes equals `K / N * 100`, and equals `0` when `N = 0`. -/
theorem C9_error_rate (rows : List MetricRow) (start? end? : Option ℤ) :
    errorRate rows start? end? =
      if (rows.filter (fun r => timeFilter start? end? r.time)).length = 0
      then 0
      else (((rows.filter (fun r => timeFilter start? end? r.time)).filter
            (fun r => r.status == "FAILURE")).length : ℚ) /
          ((rows.filter (fun r => timeFilter start? end? r.time)).length : ℚ)
          * 100 := by
  rw [errorRate, errorRateRaw, countCaseFailure_eq_filter]
  by_cases h : (rows.filter (fun r => timeFilter start? end? r.time)).length = 0
  · simp [h]
  · simp only [h, if_false, if_neg]
    ring

/-- **C10.** Every ingest whose record carries a truthy `end_time` appends
exactly one metric row — a plain append with no key and no deduplication,
so ingesting the same finalized record twice leaves one span row but two
metric rows — while a record whose `end_time` is null or zero appends
none. -/
theorem C10_metric_append (st : IngestState) (r : SpanIngest)
    (hnd : (st.spans.map SpanRow.span_id).Nodup) :
    (truthyOpt r.end_time = true →
      (ingest st r).metrics = st.metrics ++ [metricFromRecord r] ∧
      (ingest (ingest st r) r).metrics =
        st.metrics ++ [metricFromRecord r, metricFromRecord r] ∧
      (ingest (ingest st r) r).spans.filter
        (fun row => row.span_id == r.span_id) = [rowFromRecord r]) ∧
    (truthyOpt r.end_time = false → (ingest st r).metrics = st.metrics) := by
  constructor
  · intro ht
    refine ⟨by simp [ingest, ht], by simp [ingest, ht], ?_⟩
    have h2 : (ingest (ingest st r) r).spans =
        upsertSpan (upsertSpan st.spans r) r := by
      simp [ingest]
    rw [h2]
    exact upsertSpan_filter _ _ (upsertSpan_nodup _ _ hnd)
  · intro hf
    simp [ingest, hf]

theorem C10_metric_append_witness :
    (IngestState.empty.spans.map SpanRow.span_id).Nodup ∧
    (truthyOpt sampleR2.end_time = true ∧
      (ingest IngestState.empty sampleR2).metrics =
        IngestState.empty.metrics ++ [metricFromRecord sampleR2] ∧
      (ingest (ingest IngestState.empty sampleR2) sampleR2).metrics =
        IngestState.empty.metrics ++
          [metricFromRecord sampleR2, metricFromRecord sampleR2]) :=
  ⟨by decide,
    by
      have h := (C10_metric_append IngestState.empty sampleR2 (by decide)).1
        (by decide)
      exact ⟨by decide, h.1, h.2.1⟩⟩

/-- **C2 counterexample.** The claim states that every instrumented call
emits exactly one record with status RUNNING and one finalized record.  A
call instrumented with `agent_tracer.py`'s `trace` persists exactly one
record — `save_span` runs only inside `_finalize_span`, after the status
has been overwritten with SUCCESS or FAILURE — so zero RUNNING records are
ever emitted by this pipeline. -/
theorem C2_counterexample :
    ((runTraceLocal LocalState.empty "trace-1" "span-1" 0 1 "handle"
        "function" (.jsonable .null) (.ok (.jsonable .null))
        true).2.spans.filter (fun row => row.status == "RUNNING")).length = 0 ∧
    (runTraceLocal LocalState.empty "trace-1" "span-1" 0 1 "handle"
        "function" (.jsonable .null) (.ok (.jsonable .null))
        true).2.spans.length = 1 := by
  constructor
  · rfl
  · rfl

/-- **C2 (amended).** In the queue-delivery tracer (`backend/tracer.py`),
every instrumented call emits exactly one RUNNING record followed by
exactly one finalized record, both carrying the fresh `span_id`, and no
further record for that id; the local-storage tracer (`agent_tracer.py`)
persists exactly one record per call — the finalized one — and emits no
RUNNING record. -/
theorem C2_amended (st : TracerState) (fT fS : String) (t0 t1 : ℚ)
    (nm ty : String) (meta : List (String × JValue)) (inp : PyValue)
    (call : Except PyExc PyValue) (lst : LocalState) (fT' fS' : String)
    (t0' t1' : ℚ) (nm' ty' : String) (inp' : PyValue)
    (call' : Except PyExc PyValue)
    (hfresh : fS ∉ st.queue.map QRecord.span_id) :
    (runSpanLogic st fT fS t0 t1 nm ty meta inp call).2.queue =
      st.queue ++ [beaconRecOf st fT fS t0 nm ty meta inp,
        finalRecOf st fT fS t0 t1 nm ty meta inp call] ∧
    (beaconRecOf st fT fS t0 nm ty meta inp).status = "RUNNING" ∧
    (beaconRecOf st fT fS t0 nm ty meta inp).span_id = fS ∧
    (finalRecOf st fT fS t0 t1 nm ty meta inp call).span_id = fS ∧
    ((finalRecOf st fT fS t0 t1 nm ty meta inp call).status = "SUCCESS" ∨
      (finalRecOf st fT fS t0 t1 nm ty meta inp call).status = "FAILURE") ∧
    (runSpanLogic st fT fS t0 t1 nm ty meta inp call).2.queue.filter
        (fun q => q.span_id == fS) =
      [beaconRecOf st fT fS t0 nm ty meta inp,
        finalRecOf st fT fS t0 t1 nm ty meta inp call] ∧
    (runTraceLocal lst fT' fS' t0' t1' nm' ty' inp' call' true).2.spans.length =
      lst.spans.length + 1 ∧
    (runTraceLocal lst fT' fS' t0' t1' nm' ty' inp' call' true).2.spans.map
        LocalRow.status =
      lst.spans.map LocalRow.status ++
        [match call' with | .ok _ => "SUCCESS" | .error _ => "FAILURE"] ∧
    ((runTraceLocal lst fT' fS' t0' t1' nm' ty' inp' call'
        true).2.spans.filter (fun row => row.status == "RUNNING")).length =
      (lst.spans.filter (fun row => row.status == "RUNNING")).length := by
  refine ⟨runSpanLogic_queue st fT fS t0 t1 nm ty meta inp call, rfl, rfl, rfl,
    ?_, ?_, ?_, ?_, ?_⟩
  · cases call with
    | ok v => left; rfl
    | error e => right; rfl
  · rw [runSpanLogic_queue, List.filter_append]
    have h1 : st.queue.filter (fun q => q.span_id == fS) = [] := by
      rw [List.filter_eq_nil_iff]
      intro q hq hqeq
      exact hfresh (beq_iff_eq.mp hqeq ▸ List.mem_map_of_mem QRecord.span_id hq)
    rw [h1, List.nil_append]
    simp [beaconRecOf, finalRecOf]
  · simp [runTraceLocal, saveSpanLocal]
  · cases call' with
    | ok v => simp [runTraceLocal, saveSpanLocal]
    | error e => simp [runTraceLocal, saveSpanLocal]
  · cases call' with
    | ok v => simp [runTraceLocal, saveSpanLocal]
    | error e => simp [runTraceLocal, saveSpanLocal]

theorem C2_amended_witness :
    ("span-9" ∉ (TracerState.empty.queue.map QRecord.span_id)) ∧
    (runSpanLogic TracerState.empty "trace-9" "span-9" 0 1 "handle" "function"
        [] (.jsonable .null) (.ok (.jsonable .null))).2.queue.filter
        (fun q => q.span_id == "span-9") =
      [beaconRecOf TracerState.empty "trace-9" "span-9" 0 "handle" "function"
          [] (.jsonable .null),
        finalRecOf TracerState.empty "trace-9" "span-9" 0 1 "handle" "function"
          [] (.jsonable .null) (.ok (.jsonable .null))] :=
  ⟨by decide,
    (C2_amended TracerState.empty "trace-9" "span-9" 0 1 "handle" "function"
      [] (.jsonable .null) (.ok (.jsonable .null)) LocalState.empty "t" "s"
      0 1 "f" "function" (.jsonable .null) (.ok (.jsonable .null))
      (by decide)).2.2.2.2.2.1⟩

/-- **C3 counterexample.** The claim states that the finalized record of a
failing call carries the error envelope as its serialized output.  In the
queue-delivery tracer (`backend/tracer.py:_run_span_logic`), the error
path sets `error_message` and `status` but never sets `outputs`: the
finalized FAILURE record of this concrete failing call has no output at
all, envelope or otherwise. -/
theorem C3_counterexample :
    (runSpanLogic TracerState.empty "trace-1" "span-1" 0 1 "handle"
        "function" [] (.jsonable .null)
        (.error ⟨"boom", 7⟩)).2.queue.map QRecord.status =
      ["RUNNING", "FAILURE"] ∧
    (runSpanLogic TracerState.empty "trace-1" "span-1" 0 1 "handle"
        "function" [] (.jsonable .null)
        (.error ⟨"boom", 7⟩)).2.queue.map QRecord.outputs = [none, none] := by
  constructor
  · rfl
  · rfl

/-- **C3 (amended).** For every instrumented call whose wrapped unit
raises `e`, both pipelines re-raise the original exception `e` unmodified
and emit a finalized record with status FAILURE and `error_message` equal
to the message of `e`; the local-storage tracer additionally serializes
the error envelope (the one-entry object mapping "error" to the message)
as the output, while the queue tracer's finalized FAILURE record carries
no output. -/
theorem C3_amended (st : TracerState) (fT fS : String) (t0 t1 : ℚ)
    (nm ty : String) (meta : List (String × JValue)) (inp : PyValue)
    (e : PyExc) (lst : LocalState) (fT' fS' : String) (t0' t1' : ℚ)
    (nm' ty' : String) (inp' : PyValue) :
    (runSpanLogic st fT fS t0 t1 nm ty meta inp (.error e)).1 = .error e ∧
    (runSpanLogic st fT fS t0 t1 nm ty meta inp (.error e)).2.queue =
      st.queue ++ [beaconRecOf st fT fS t0 nm ty meta inp,
        finalRecOf st fT fS t0 t1 nm ty meta inp (.error e)] ∧
    (finalRecOf st fT fS t0 t1 nm ty meta inp (.error e)).status =
      "FAILURE" ∧
    (finalRecOf st fT fS t0 t1 nm ty meta inp (.error e)).error_message =
      some e.msg ∧
    (finalRecOf st fT fS t0 t1 nm ty meta inp (.error e)).outputs = none ∧
    (runTraceLocal lst fT' fS' t0' t1' nm' ty' inp' (.error e) true).1 =
      .error e ∧
    (runTraceLocal lst fT' fS' t0' t1' nm' ty' inp' (.error e)
        true).2.spans.map LocalRow.status =
      lst.spans.map LocalRow.status ++ ["FAILURE"] ∧
    (runTraceLocal lst fT' fS' t0' t1' nm' ty' inp' (.error e)
        true).2.spans.map LocalRow.error_message =
      lst.spans.map LocalRow.error_message ++ [some e.msg] ∧
    (runTraceLocal lst fT' fS' t0' t1' nm' ty' inp' (.error e)
        true).2.spans.map LocalRow.output_hash =
      lst.spans.map LocalRow.output_hash ++
        [some (blobHashLocal (.jsonable (.obj [("error", .str e.msg)])))] := by
  refine ⟨rfl, runSpanLogic_queue st fT fS t0 t1 nm ty meta inp (.error e),
    rfl, rfl, rfl, rfl, ?_, ?_, ?_⟩ <;>
    simp [runTraceLocal, saveSpanLocal]

/-- **C5 counterexample.** The claim states that a persistence failure is
logged at the collector and the ingest call still reports success.  The
handler body of `backend/main.py:ingest_span` wraps nothing in
`try`/`except`, so a raised persistence error propagates out of the
handler: at this concrete request with failing persistence the ingest call
reports an error, not success. -/
theorem C5_counterexample :
    ingestResult false IngestState.empty sampleR2 =
      .error "OperationalError" := rfl

/-- **C5 (amended).** A persistence failure in the backend collector
propagates out of the ingest call as an error (FastAPI answers non-200; it
is the delivery worker at the client that logs the failed transmission and
drops the record, so the traced application is still never affected); only
the local storage engine's `save_span` catches a persistence failure, logs
it, and returns normally with the table unchanged. -/
theorem C5_amended (st : IngestState) (r : SpanIngest) (row : LocalRow)
    (spans : List LocalRow) (log : List String) (code : Nat) (e : String)
    (hcode : code ≠ 200) :
    ingestResult false st r = .error "OperationalError" ∧
    saveSpanLocal false row spans log =
      (spans, log ++ ["!! AgentTracer DB Error: OperationalError"]) ∧
    workerHandle (.ok code) log =
      log ++ ["Tracer Error: Server returned " ++ toString code] ∧
    workerHandle (.error e) log = log ++ ["Tracer Connection Failed: " ++ e] := by
  refine ⟨rfl, rfl, ?_, rfl⟩
  have hb : (code != 200) = true := by simpa using hcode
  simp [workerHandle, hb]

theorem C5_amended_witness :
    (500 ≠ 200) ∧
    workerHandle (.ok 500) [] = ["Tracer Error: Server returned 500"] :=
  ⟨by decide,
    (C5_amended IngestState.empty sampleR2
      { span_id := "s", trace_id := "t", parent_span_id := none, name := "f"
        type := "function", start_time := 0, end_time := some 1
        duration := some 1, status := "SUCCESS", error_message := none
        input_hash := none, output_hash := none }
      [] [] 500 "err" (by decide)).2.2.1⟩

/-- **C6 counterexample.** The claim states that the second `save(x)` with
equal content finds the object already present and does not write it
again.  `backend/main.py:save_blob` has no existence check: saving the
same value twice from an empty store performs two writes (the write log
holds two entries), even though both calls return the same hash. -/
theorem C6_counterexample :
    (saveBlobBackend (.jsonable (.str "x"))
        (saveBlobBackend (.jsonable (.str "x")) BlobState.empty).2).2.writes.length
      = 2 ∧
    (saveBlobBackend (.jsonable (.str "x"))
        (saveBlobBackend (.jsonable (.str "x")) BlobState.empty).2).1 =
      (saveBlobBackend (.jsonable (.str "x")) BlobState.empty).1 := by
  constructor
  · rfl
  · rfl

theorem saveBlobLocal_eq (v : PyValue) (st : BlobState) :
    saveBlobLocal v st =
      if (st.blobs.find?
          (fun e => e.1 == sha256hex (dumpsLocalText v))).isSome then
        (sha256hex (dumpsLocalText v), st)
      else
        (sha256hex (dumpsLocalText v),
          ⟨st.blobs ++ [(sha256hex (dumpsLocalText v), dumpsLocalText v)],
            st.writes ++ [sha256hex (dumpsLocalText v)]⟩) := rfl

/-- **C6 (amended).** Saving the same value twice returns the same hash
and leaves exactly one stored object in either store; the local engine's
`save_blob` additionally skips the write when the object already exists
(the second call changes nothing, dedup by existence check), whereas the
backend's `save_blob` unconditionally rewrites the identical content (its
write log grows again). -/
theorem C6_amended (v : PyValue) (st : BlobState)
    (hnd : (st.blobs.map Prod.fst).Nodup) (hv : v ≠ .jsonable .null) :
    (saveBlobLocal v (saveBlobLocal v st).2).1 = (saveBlobLocal v st).1 ∧
    (saveBlobLocal v (saveBlobLocal v st).2).2 = (saveBlobLocal v st).2 ∧
    ((saveBlobLocal v st).2.blobs.filter
        (fun e => e.1 == blobHashLocal v)).length = 1 ∧
    (saveBlobBackend v (saveBlobBackend v st).2).1 =
      (saveBlobBackend v st).1 ∧
    (saveBlobBackend v (saveBlobBackend v st).2).2.writes =
      (saveBlobBackend v st).2.writes ++ [sha256hex (dumpsBackendText v)] ∧
    ((saveBlobBackend v st).2.blobs.filter
        (fun e => e.1 == sha256hex (dumpsBackendText v))).length = 1 := by
  have hsome : (((saveBlobLocal v st).2.blobs).find?
      (fun e => e.1 == sha256hex (dumpsLocalText v))).isSome = true := by
    rw [saveBlobLocal_eq]
    split
    · rename_i hfound
      exact hfound
    · exact find?_append_singleton_isSome _ _ _ (by simp)
  have hnoop : saveBlobLocal v (saveBlobLocal v st).2 =
      (sha256hex (dumpsLocalText v), (saveBlobLocal v st).2) := by
    rw [saveBlobLocal_eq v (saveBlobLocal v st).2, if_pos hsome]
  refine ⟨?_, ?_, ?_, ?_, ?_, ?_⟩
  · rw [hnoop, saveBlobLocal_fst, blobHashLocal]
  · rw [hnoop]
  · rw [blobHashLocal, saveBlobLocal_eq]
    split
    · rename_i hfound
      apply filter_key_one_of_mem _ _ hnd
      rcases Option.isSome_iff_exists.mp hfound with ⟨e, he⟩
      have hmem := List.mem_of_find?_eq_some he
      have hp := List.find?_some he
      exact (beq_iff_eq.mp hp) ▸ List.mem_map_of_mem Prod.fst hmem
    · rename_i hnfound
      rw [List.filter_append]
      have h1 : st.blobs.filter
          (fun e => e.1 == sha256hex (dumpsLocalText v)) = [] := by
        apply filter_key_nil_of_notmem
        intro hmem
        exact hnfound (find?_of_mem_key _ _ hmem)
      rw [h1, List.nil_append]
      simp [List.filter]
  · rw [saveBlobBackend_ne_null v st hv,
      saveBlobBackend_ne_null v _ hv]
  · rw [saveBlobBackend_ne_null v st hv,
      saveBlobBackend_ne_null v _ hv]
  · rw [saveBlobBackend_ne_null v st hv]
    exact overwrite_filter_one _ _ _ hnd

theorem C6_amended_witness :
    ((BlobState.empty.blobs.map Prod.fst).Nodup ∧
      (PyValue.jsonable (.str "x")) ≠ .jsonable .null) ∧
    (saveBlobLocal (.jsonable (.str "x"))
        (saveBlobLocal (.jsonable (.str "x")) BlobState.empty).2).2 =
      (saveBlobLocal (.jsonable (.str "x")) BlobState.empty).2 :=
  ⟨⟨by decide, by decide⟩,
    (C6_amended (.jsonable (.str "x")) BlobState.empty (by decide)
      (by decide)).2.1⟩

/-- **C7 counterexample.** The claim states that save canonicalizes any
two structurally equal mappings to the same deterministic text with
stable key ordering and therefore returns the same hash.
`backend/main.py:save_blob` serializes without `sort_keys`: the same two
key-value pairs inserted in different orders produce different canonical
texts and different hashes. -/
theorem C7_counterexample :
    List.Perm [("a", JValue.num 1), ("b", JValue.num 2)]
      [("b", JValue.num 2), ("a", JValue.num 1)] ∧
    dumpsBackendText (.jsonable (.obj [("a", .num 1), ("b", .num 2)])) ≠
      dumpsBackendText (.jsonable (.obj [("b", .num 2), ("a", .num 1)])) ∧
    (saveBlobBackend (.jsonable (.obj [("a", .num 1), ("b", .num 2)]))
        BlobState.empty).1 ≠
      (saveBlobBackend (.jsonable (.obj [("b", .num 2), ("a", .num 1)]))
        BlobState.empty).1 := by
  refine ⟨?_, by decide, by decide⟩
  exact List.Perm.swap _ _ _

/-- **C7 (amended).** The local engine's `save_blob` canonicalizes with
sorted keys: any two mappings holding the same key-value pairs (with
distinct keys) in different insertion orders receive the same hash, even
when saved into different stores; the backend's `save_blob` serializes in
insertion order and returns different hashes for the same two pairs when
their order differs. -/
theorem C7_amended (l₁ l₂ : List (String × JValue)) (st st' : BlobState)
    (hp : List.Perm l₁ l₂) (hnd : (l₁.map Prod.fst).Nodup) :
    (saveBlobLocal (.jsonable (.obj l₁)) st).1 =
      (saveBlobLocal (.jsonable (.obj l₂)) st').1 ∧
    (saveBlobBackend (.jsonable (.obj [("a", .num 1), ("b", .num 2)]))
        BlobState.empty).1 ≠
      (saveBlobBackend (.jsonable (.obj [("b", .num 2), ("a", .num 1)]))
        BlobState.empty).1 := by
  constructor
  · rw [saveBlobLocal_fst, saveBlobLocal_fst, blobHashLocal, blobHashLocal,
      dumpsLocal_obj_perm l₁ l₂ hp hnd]
  · decide

theorem C7_amended_witness :
    (List.Perm [("a", JValue.num 1), ("b", JValue.num 2)]
        [("b", JValue.num 2), ("a", JValue.num 1)] ∧
      (([("a", JValue.num 1), ("b", JValue.num 2)]).map Prod.fst).Nodup) ∧
    (saveBlobLocal (.jsonable (.obj [("a", .num 1), ("b", .num 2)]))
        BlobState.empty).1 =
      (saveBlobLocal (.jsonable (.obj [("b", .num 2), ("a", .num 1)]))
        BlobState.empty).1 :=
  ⟨⟨List.Perm.swap _ _ _, by decide⟩,
    (C7_amended [("a", .num 1), ("b", .num 2)] [("b", .num 2), ("a", .num 1)]
      BlobState.empty BlobState.empty (List.Perm.swap _ _ _) (by decide)).1⟩

/-- **C8 counterexample.** The claim states that `load` never fails on
content that `save` wrote, returning the stored text itself in the
string-fallback case.  `backend/main.py:get_blob` calls `json.load`
unconditionally: on the stored fallback text of a non-serializable value,
which is not JSON, the load raises instead of returning the text. -/
theorem C8_counterexample :
    getBlob (saveBlobBackend (.raw "<Customer object at 0x7f>")
        BlobState.empty).2
      (saveBlobBackend (.raw "<Customer object at 0x7f>")
        BlobState.empty).1 = .error "JSONDecodeError" := by
  rfl

/-- **C8 (amended).** `load(save(v))` returns the structured value parsed
back whenever the stored text is valid JSON — in particular always for
JSON-serializable values other than `None` — but on string-fallback
content that is not valid JSON it raises a decode error rather than
returning the stored text.  (Objects model Python dicts, whose keys are
distinct by construction.) -/
theorem C8_amended (j : JValue) (s : String) (st st' : BlobState)
    (hj : j ≠ .null) (hs : jsonLoads s = none) :
    getBlob (saveBlobBackend (.jsonable j) st).2
        (saveBlobBackend (.jsonable j) st).1 = .ok (some j) ∧
    getBlob (saveBlobBackend (.raw s) st').2
        (saveBlobBackend (.raw s) st').1 = .error "JSONDecodeError" := by
  constructor
  · have hvne : (PyValue.jsonable j) ≠ .jsonable .null := by
      intro hcontra
      exact hj (by injection hcontra)
    rw [saveBlobBackend_ne_null _ st hvne]
    rw [getBlob]
    rw [show BlobState.lookup
        ⟨BlobState.overwrite st.blobs
            (sha256hex (dumpsBackendText (.jsonable j)))
            (dumpsBackendText (.jsonable j)),
          st.writes ++ [sha256hex (dumpsBackendText (.jsonable j))]⟩
        (sha256hex (dumpsBackendText (.jsonable j))) =
        some (dumpsBackendText (.jsonable j)) by
      rw [BlobState.lookup]
      rw [find?_overwrite]
      rfl]
    simp only [show dumpsBackendText (.jsonable j) = String.mk (dumpVal j)
      from rfl, jsonLoads_dump]
  · have hvne : (PyValue.raw s) ≠ .jsonable .null := by
      intro hcontra
      exact PyValue.noConfusion hcontra
    rw [saveBlobBackend_ne_null _ st' hvne]
    rw [getBlob]
    rw [show BlobState.lookup
        ⟨BlobState.overwrite st'.blobs (sha256hex (dumpsBackendText (.raw s)))
            (dumpsBackendText (.raw s)),
          st'.writes ++ [sha256hex (dumpsBackendText (.raw s))]⟩
        (sha256hex (dumpsBackendText (.raw s))) =
        some (dumpsBackendText (.raw s)) by
      rw [BlobState.lookup]
      rw [find?_overwrite]
      rfl]
    simp only [show dumpsBackendText (.raw s) = s from rfl, hs]

theorem C8_amended_witness :
    ((JValue.obj [("k", JValue.num 1)]) ≠ JValue.null ∧
      jsonLoads "<x>" = none) ∧
    getBlob (saveBlobBackend (.jsonable (.obj [("k", .num 1)]))
        BlobState.empty).2
      (saveBlobBackend (.jsonable (.obj [("k", .num 1)]))
        BlobState.empty).1 = .ok (some (.obj [("k", .num 1)])) :=
  ⟨⟨by decide, by decide⟩,
    (C8_amended (.obj [("k", .num 1)]) "<x>" BlobState.empty BlobState.empty
      (by decide) (by decide)).1⟩
